import Mathlib

/-!
Verification of the remake-pod transcript/subtitle/speech pipeline.

The Python sources (`src/app.py`, `src/stt/rev.py`, `src/translate/translate.py`,
`src/tts/eleven_labs.py`) are shallowly embedded below.  Python strings are
modelled as `List Char` (wrapped in `String` at the interfaces), Python lists as
`List`, raised exceptions as `Except`/`Option`, seconds as exact values
(`Nat` microseconds where the source goes through `datetime.timedelta`, `ℚ`
where the source compares raw numbers), and the filesystem as a finite map
from path strings to file contents.
-/

namespace RemakePod

/-! ## Python string primitives -/

/-- The ASCII whitespace characters stripped by Python `str.strip()`. -/
def isPySpace (c : Char) : Bool :=
  c = ' ' || c = '\t' || c = '\n' || c = '\r' || c = '\x0b' || c = '\x0c'

/-- Remove the longest suffix of characters satisfying `p` (Python `rstrip`). -/
def dropTrailWhile (p : Char → Bool) (s : List Char) : List Char :=
  (s.reverse.dropWhile p).reverse

/-- Python `str.strip()` on a character list. -/
def pyStripList (s : List Char) : List Char :=
  dropTrailWhile isPySpace (s.dropWhile isPySpace)

/-- Python `str.split(sep)` for a one-character separator `sep`. -/
def pySplitChar (sep : Char) : List Char → List (List Char)
  | [] => [[]]
  | c :: s =>
    if c = sep then [] :: pySplitChar sep s
    else
      match pySplitChar sep s with
      | [] => [[c]]
      | h :: t => (c :: h) :: t

/-- Python `str.split('    ')`: greedy left-to-right split on the four-space
delimiter, keeping empty parts, no limit on the number of splits. -/
def pySplit4 : List Char → List (List Char)
  | ' ' :: ' ' :: ' ' :: ' ' :: rest => [] :: pySplit4 rest
  | c :: rest =>
    match pySplit4 rest with
    | [] => [[c]]
    | h :: t => (c :: h) :: t
  | [] => [[]]

/-- Python `str.split('    ', maxsplit)`: as `pySplit4` but performing at most
`n` splits, the remainder being returned whole. -/
def pySplit4Max : Nat → List Char → List (List Char)
  | _, [] => [[]]
  | 0, s => [s]
  | n + 1, ' ' :: ' ' :: ' ' :: ' ' :: rest => [] :: pySplit4Max n rest
  | n + 1, c :: rest =>
    match pySplit4Max (n + 1) rest with
    | [] => [[c]]
    | h :: t => (c :: h) :: t

/-- Python `'\n'.join`/f-string concatenation helper: join with a separator. -/
def joinSep (sep : List Char) : List (List Char) → List Char
  | [] => []
  | [l] => l
  | l :: ls => l ++ sep ++ joinSep sep ls

/-- Decimal digits of a natural number (what `str(n)` prints for `n : Nat`). -/
def natChars (n : Nat) : List Char :=
  Nat.toDigits 10 n

/-- Python `f"{n:0w}"`: decimal digits of `n` left-padded with zeros to width
`w` (never truncating). -/
def padZero (w : Nat) (n : Nat) : List Char :=
  let ds := natChars n
  List.replicate (w - ds.length) '0' ++ ds

/-! ## `format_timestamp` (src/app.py)

```python
def format_timestamp(seconds):
    td = timedelta(seconds=seconds)
    return f"{td.seconds // 3600:02}:{(td.seconds // 60) % 60:02}:{td.seconds % 60:02},{int(td.microseconds / 1000):03}"
```

A non-negative duration is modelled exactly as a count of microseconds
(`timedelta` stores days/seconds/microseconds; for a duration of `us`
microseconds, `td.seconds = (us / 10^6) % 86400` — the days component is *not*
consulted by the f-string — and `td.microseconds = us % 10^6`). -/

/-- `format_timestamp` from src/app.py, on a duration of `us` microseconds. -/
def format_timestamp (us : Nat) : List Char :=
  let tdSeconds := (us / 1000000) % 86400
  let tdMicroseconds := us % 1000000
  padZero 2 (tdSeconds / 3600) ++ ':' :: padZero 2 ((tdSeconds / 60) % 60) ++
    ':' :: padZero 2 (tdSeconds % 60) ++ ',' :: padZero 3 (tdMicroseconds / 1000)

/-- Modelled from the spec sentence for claim C9 (for comparison with the
code): hours/minutes/seconds computed from the integer part of the *total*
duration (`hours = total seconds div 3600`, etc.), milliseconds from the
fractional remainder truncated to three digits. -/
def specFormatTimestamp (us : Nat) : List Char :=
  let totalSeconds := us / 1000000
  padZero 2 (totalSeconds / 3600) ++ ':' :: padZero 2 ((totalSeconds / 60) % 60) ++
    ':' :: padZero 2 (totalSeconds % 60) ++ ',' :: padZero 3 (us % 1000000 / 1000)

/-! ## DiarizationAligner (src/app.py, `translate_audio`)

```python
segments = []
for segment, track in diarization.itertracks(yield_label=True):
    matching_segments = []
    for trans_segment in result["segments"]:
        trans_start = trans_segment["start"]
        trans_end = trans_segment["end"]
        if (trans_start >= segment.start and trans_start < segment.end) or \
           (trans_end > segment.start and trans_end <= segment.end):
            matching_segments.append(trans_segment["text"])
    if matching_segments:
        segments.append(f"Speaker {track}: {' '.join(matching_segments)}")
```

Segment boundaries are seconds, modelled as exact rationals; `end` is a Lean
keyword, so the field is called `stop`. -/

/-- A Whisper transcription segment (`{"start": .., "end": .., "text": ..}`). -/
structure TranscriptSegment where
  start : ℚ
  stop : ℚ
  text : List Char
deriving DecidableEq

/-- A pyannote diarization track: speaker id plus its time window. -/
structure DiarizationSegment where
  track : Nat
  start : ℚ
  stop : ℚ
deriving DecidableEq

/-- The overlap test of the inner loop, exactly as written in the source. -/
def overlapB (seg : DiarizationSegment) (tr : TranscriptSegment) : Bool :=
  (decide (tr.start ≥ seg.start) && decide (tr.start < seg.stop)) ||
    (decide (tr.stop > seg.start) && decide (tr.stop ≤ seg.stop))

/-- The inner loop: texts of all transcript segments matching `seg`,
accumulated by `append` in transcript order. -/
def matchingTexts (seg : DiarizationSegment) (trans : List TranscriptSegment) :
    List (List Char) :=
  trans.foldl (fun acc tr => if overlapB seg tr then acc ++ [tr.text] else acc) []

/-- The `f"Speaker {track}: ..."` label of one utterance. -/
def speakerLine (track : Nat) (texts : List (List Char)) : List Char :=
  "Speaker ".toList ++ natChars track ++ ": ".toList ++ joinSep " ".toList texts

/-- The outer loop: one labelled utterance per diarization segment that has at
least one matching transcript segment. -/
def combineSegments (diar : List DiarizationSegment)
    (trans : List TranscriptSegment) : List (List Char) :=
  diar.foldl
    (fun acc seg =>
      let m := matchingTexts seg trans
      if m = [] then acc else acc ++ [speakerLine seg.track m])
    []

/-! ## VoiceSynthesisMixer (src/tts/eleven_labs.py, `generate_speech`)

```python
final_mix = pydub.AudioSegment.empty()
for speaker_num, text in speaker_lines:
    if speaker_num >= len(voices):
        logger.warning(...)
        continue
    audio = voice_services[speaker_num].generate(text=text, voice=voices[speaker_num], ...)
    ...
    final_mix += audio_segment
```

The synthesis collaborator is abstracted as a function `synth text voice`;
the concatenated mix is the list of synthesized clips in order. -/

/-- `generate_speech` from src/tts/eleven_labs.py: the sequence of clips
appended to the initially empty mix. -/
def generate_speech {α : Type} (synth : String → String → α)
    (speaker_lines : List (Nat × String)) (voices : List String) : List α :=
  speaker_lines.foldl
    (fun final_mix line =>
      if h : line.1 < voices.length then
        final_mix ++ [synth line.2 voices[line.1]]
      else final_mix)
    []

/-! ## PipelineOrchestrator (src/app.py, `translate_audio`)

The POST handler stages, in order:
0. save the upload to `temp/temp_input{ext}` and register it in `temp_files`;
1. convert: for `.m4a/.wav/.ogg/.aac` export a new `temp/temp_audio.mp3`,
   otherwise `os.rename` the input onto that path; register the path;
2. diarization; 3. Whisper transcription; 4. OpenAI translation;
5. gTTS export to `{downloads}/translated_audio_{timestamp}.mp3`;
6. SRT export to `{downloads}/transcript_{timestamp}.srt`;
then, still inside the `try`, remove every path in `temp_files` that exists.
The `except` handler only logs and flashes — it removes nothing.

The filesystem is modelled as the list of existing file paths; a run is
parameterised by the downloads directory, the (lowercased) upload extension,
the request timestamp, and an optional stage index at which a collaborator
raises (that stage's effects do not happen and control jumps to `except`). -/

/-- `temp_original = os.path.join(temp_dir, f"temp_input{file_ext}")`. -/
def tempInputPath (ext : String) : String := "temp/temp_input" ++ ext

/-- `temp_path = os.path.join(temp_dir, "temp_audio.mp3")`. -/
def tempAudioPath : String := "temp/temp_audio.mp3"

/-- The extensions that trigger pydub conversion rather than a rename. -/
def convertExts : List String := [".m4a", ".wav", ".ogg", ".aac"]

/-- `output_path = os.path.join(downloads_dir, f"translated_audio_{timestamp}.mp3")`. -/
def audioOutPath (dl ts : String) : String := dl ++ "/translated_audio_" ++ ts ++ ".mp3"

/-- `srt_path = os.path.join(downloads_dir, f"transcript_{timestamp}.srt")`. -/
def srtOutPath (dl ts : String) : String := dl ++ "/transcript_" ++ ts ++ ".srt"

/-- The fixed path the mixer (src/tts/eleven_labs.py) writes every synthesized
clip to: `with open("temp.mp3", "wb")`. -/
def mixerTempPath : String := "temp.mp3"

/-- State of one pipeline run: the files on disk, the registered `temp_files`
list, and whether the run ended in the `except` handler. -/
structure RunState where
  disk : List String
  temp_files : List String
  failed : Bool
deriving DecidableEq

/-- `os.remove(p)` on the modelled disk. -/
def removeFile (p : String) (disk : List String) : List String :=
  disk.filter (fun q => q != p)

/-- Effect of stage `k` of `translate_audio` on the run state. -/
def applyStage (dl ext ts : String) (k : Nat) (s : RunState) : RunState :=
  if k = 0 then
    { s with disk := s.disk ++ [tempInputPath ext], temp_files := s.temp_files ++ [tempInputPath ext] }
  else if k = 1 then
    if ext ∈ convertExts then
      { s with disk := s.disk ++ [tempAudioPath], temp_files := s.temp_files ++ [tempAudioPath] }
    else
      { s with disk := removeFile (tempInputPath ext) s.disk ++ [tempAudioPath], temp_files := s.temp_files ++ [tempAudioPath] }
  else if k = 5 then { s with disk := s.disk ++ [audioOutPath dl ts] }
  else if k = 6 then { s with disk := s.disk ++ [srtOutPath dl ts] }
  else s

/-- The success-path cleanup loop: remove each registered temp file that still
exists (removal failures are swallowed; a missing file is simply skipped). -/
def cleanupRun (s : RunState) : RunState :=
  { s with disk := s.temp_files.foldl (fun d p => removeFile p d) s.disk }

/-- One whole `translate_audio` run.  `failAt = none` is a fully successful
run (all seven stages, then cleanup); `failAt = some k` means stage `k`
raised: stages `0..k-1` have happened, and the `except` handler performs no
cleanup. -/
def runPipeline (dl ext ts : String) (failAt : Option Nat) : RunState :=
  let init : RunState := ⟨[], [], false⟩
  match failAt with
  | none => cleanupRun ((List.range 7).foldl (fun s k => applyStage dl ext ts k s) init)
  | some k =>
    { (List.range (min k 7)).foldl (fun s k => applyStage dl ext ts k s) init with
      failed := true }

/-! ## Rev.ai poll loop (src/stt/rev.py, `transcribe_to_files`)

```python
job_details = client.get_job_details(job.id)
while job_details.status == "in_progress":
    job_details = client.get_job_details(job.id)
    time.sleep(30)
if job_details.status == "transcribed":
    transcript_text = client.get_transcript_text(job.id)
else:
    raise Exception(f"Transcription failed with status: {job_details.status}")
```

The collaborator is abstracted as the sequence `st : Nat → String` of
statuses returned by successive `get_job_details` calls (`st 0` is the call
before the loop).  The loop has no built-in bound, so it is modelled with
fuel: `none` means the fuel ran out while still `in_progress`. -/

/-- The fixed `time.sleep(30)` interval, in seconds. -/
def pollIntervalSeconds : Nat := 30

/-- The poll loop: starting at status index `i`, keep polling while the
status is `"in_progress"`; return the exit index together with the list of
sleep durations performed (one per loop iteration). -/
def pollTrace (st : Nat → String) : Nat → Nat → Option (Nat × List Nat)
  | 0, i => if st i = "in_progress" then none else some (i, [])
  | fuel + 1, i =>
    if st i = "in_progress" then
      (pollTrace st fuel (i + 1)).map (fun r => (r.1, pollIntervalSeconds :: r.2))
    else some (i, [])

/-- The outcome of the transcription stage after the loop: the transcript is
fetched iff the exit status is `"transcribed"`, otherwise the
`Transcription failed with status: ...` exception is raised. -/
def transcribe_result (st : Nat → String) (fuel : Nat)
    (transcriptText : String) : Option (Except String String) :=
  (pollTrace st fuel 0).map (fun r =>
    if st r.1 = "transcribed" then Except.ok transcriptText
    else Except.error ("Transcription failed with status: " ++ st r.1))

/-! ## `translate_srt` (src/translate/translate.py)

```python
with open(srt_file, 'r', encoding='utf-8') as f:
    text = f.read()
...
translated_text = response.choices[0].message.content
timestamp = datetime.now().strftime("%Y%m%d_%H%M%S")
original_filename = os.path.basename(srt_file)
filename_without_ext = os.path.splitext(original_filename)[0]
new_filename = f"{filename_without_ext}_{from_lang}_to_{to_lang}_{timestamp}.srt"
new_filepath = os.path.join(os.path.dirname(srt_file), new_filename)
with open(new_filepath, 'w', encoding='utf-8') as f:
    f.write(translated_text)
return new_filepath
```

The filesystem is a map from path strings to contents; the OpenAI call is an
oracle from document text to translated text.  `posixpath` operations are
embedded on `List Char`. -/

/-- One past the index of the last occurrence of `sep` in the list
(`rfind(sep) + 1`), `0` when `sep` does not occur. -/
def lastCut (sep : Char) : List Char → Nat
  | [] => 0
  | c :: rest =>
    let r := lastCut sep rest
    if r = 0 then (if c = sep then 1 else 0) else r + 1

/-- `posixpath.split`: cut after the last `/`; the head keeps its trailing
slashes only when it consists of nothing but slashes. -/
def pySplitPath (p : List Char) : List Char × List Char :=
  if p.take (lastCut '/' p) ≠ [] ∧ ¬ (p.take (lastCut '/' p)).all (fun c => c = '/') then
    (dropTrailWhile (fun c => c = '/') (p.take (lastCut '/' p)), p.drop (lastCut '/' p))
  else (p.take (lastCut '/' p), p.drop (lastCut '/' p))

/-- `os.path.dirname`. -/
def pyDirname (p : List Char) : List Char := (pySplitPath p).1

/-- `os.path.basename`. -/
def pyBasename (p : List Char) : List Char := (pySplitPath p).2

/-- `posixpath.splitext` on a slash-free name (the source only applies it to
`os.path.basename(srt_file)`, so `sepIndex = -1`): split at the last dot
unless every character before it is a dot (hidden-file rule). -/
def pySplitext (p : List Char) : List Char × List Char :=
  if lastCut '.' p = 0 then (p, [])
  else if (p.take (lastCut '.' p - 1)).any (fun c => c ≠ '.') then
    (p.take (lastCut '.' p - 1), p.drop (lastCut '.' p - 1))
  else (p, [])

/-- `posixpath.join` for two components. -/
def pyJoin (a b : List Char) : List Char :=
  if b.head? = some '/' then b
  else if a = [] ∨ a.getLast? = some '/' then a ++ b
  else a ++ '/' :: b

/-- The modelled filesystem: path → contents. -/
def FS : Type := String → Option String

/-- Writing one file. -/
def writeFS (fs : FS) (p v : String) : FS :=
  fun q => if q = p then some v else fs q

/-- `f"{filename_without_ext}_{from_lang}_to_{to_lang}_{timestamp}.srt"`. -/
def newSrtName (stem : List Char) (from_lang to_lang ts : String) : List Char :=
  stem ++ ("_" ++ from_lang ++ "_to_" ++ to_lang ++ "_" ++ ts ++ ".srt").toList

/-- `translate_srt` from src/translate/translate.py: read the input, obtain
the translation from the oracle, write it to the timestamped sibling file and
return that path (`none` models the read raising). -/
def translate_srt (fs : FS) (oracle : String → String)
    (srt_file from_lang to_lang ts : String) : Option (FS × String) :=
  (fs srt_file).map (fun text =>
    let translated := oracle text
    let stem := (pySplitext (pyBasename srt_file.toList)).1
    let newPath := String.mk (pyJoin (pyDirname srt_file.toList)
      (newSrtName stem from_lang to_lang ts))
    (writeFS fs newPath translated, newPath))

/-! ## SubtitleCodec (src/stt/rev.py)

`create_srt_from_transcript` and `format_transcript_txt` both walk the
transcript line by line.  Python's `float(...)` is embedded as an exact
parser: its values are unnormalised integer fractions (`PyNum`), signed
infinities or nan; `f"{v:.3f}"` is round-half-even to three decimals.  A
raised `ValueError` is an `Except.error`. -/

/-- Does the list start with the four-space delimiter? -/
def sp4head : List Char → Bool
  | ' ' :: ' ' :: ' ' :: ' ' :: _ => true
  | _ => false

/-- An exact finite numeric value `num / den` (`den` a positive power of
ten by construction). -/
structure PyNum where
  num : Int
  den : Nat
deriving DecidableEq

/-- A Python float as produced by `float(str)`. -/
inductive PyFloat where
  | finite (v : PyNum)
  | inf (neg : Bool)
  | nan
deriving DecidableEq

/-- Scan a run of decimal digits allowing Python numeric underscores (an
underscore must sit between two digits); returns the accumulated value, the
number of digits consumed, and the unconsumed remainder. -/
def digitsGo (acc k : Nat) : List Char → Nat × Nat × List Char
  | [] => (acc, k, [])
  | d :: rest =>
    if d.isDigit then digitsGo (acc * 10 + (d.toNat - 48)) (k + 1) rest
    else if d = '_' then
      match rest with
      | e :: rest2 =>
        if e.isDigit then digitsGo (acc * 10 + (e.toNat - 48)) (k + 1) rest2
        else (acc, k, d :: rest)
      | [] => (acc, k, d :: rest)
    else (acc, k, d :: rest)

/-- A digit run must start with a digit. -/
def parseDigits (s : List Char) : Option (Nat × Nat × List Char) :=
  match s with
  | d :: rest => if d.isDigit then some (digitsGo (d.toNat - 48) 1 rest) else none
  | [] => none

/-- The mantissa of a float literal: `digits [. digits?]` or `. digits`. -/
def parseMantissa (s : List Char) : Option (PyNum × List Char) :=
  match parseDigits s with
  | some (iv, _, r1) =>
    match r1 with
    | '.' :: r2 =>
      match parseDigits r2 with
      | some (fv, fk, r3) => some (⟨iv * 10 ^ fk + fv, 10 ^ fk⟩, r3)
      | none => some (⟨iv, 1⟩, r2)
    | _ => some (⟨iv, 1⟩, r1)
  | none =>
    match s with
    | '.' :: r2 =>
      (parseDigits r2).map (fun t => (⟨t.1, 10 ^ t.2.1⟩, t.2.2))
    | _ => none

/-- Scale a finite value by `10 ^ e`. -/
def expScale (m : PyNum) (e : Int) : PyNum :=
  match e with
  | Int.ofNat k => ⟨m.num * 10 ^ k, m.den⟩
  | Int.negSucc k => ⟨m.num, m.den * 10 ^ (k + 1)⟩

/-- Mantissa plus optional exponent; the whole remainder must be consumed. -/
def parseAfterSign (s : List Char) : Option PyNum :=
  match parseMantissa s with
  | none => none
  | some (m, r) =>
    match r with
    | [] => some m
    | c :: r2 =>
      if c = 'e' ∨ c = 'E' then
        match r2 with
        | '+' :: r3 =>
          match parseDigits r3 with
          | some (ev, _, r4) => if r4 = [] then some (expScale m (ev : Int)) else none
          | none => none
        | '-' :: r3 =>
          match parseDigits r3 with
          | some (ev, _, r4) => if r4 = [] then some (expScale m (-(ev : Int))) else none
          | none => none
        | _ =>
          match parseDigits r2 with
          | some (ev, _, r4) => if r4 = [] then some (expScale m (ev : Int)) else none
          | none => none
      else none

/-- The body of `float(...)` after the optional sign has been consumed. -/
def pyParseFloatCore (r : List Char) (neg : Bool) : Option PyFloat :=
  if r.map Char.toLower = "inf".toList ∨ r.map Char.toLower = "infinity".toList then
    some (PyFloat.inf neg)
  else if r.map Char.toLower = "nan".toList then some PyFloat.nan
  else (parseAfterSign r).map (fun m =>
    PyFloat.finite (if neg then ⟨-m.num, m.den⟩ else m))

/-- Python `float(str)`: strip whitespace, optional sign, then a numeric
literal or an inf/nan word; `none` models the raised `ValueError`. -/
def pyParseFloat (s : List Char) : Option PyFloat :=
  match pyStripList s with
  | '+' :: r => pyParseFloatCore r false
  | '-' :: r => pyParseFloatCore r true
  | r => pyParseFloatCore r false

/-- `float(seconds) + 5`. -/
def pyAdd5 : PyFloat → PyFloat
  | PyFloat.finite m => PyFloat.finite ⟨m.num + 5 * (m.den : Int), m.den⟩
  | x => x

/-- Round `m * 1000` to the nearest integer, ties to even (the rounding of
`f"{v:.3f}"`). -/
def roundHalfEvenMilli (m : PyNum) : Int :=
  let t : Int := m.num * 1000
  let d : Int := (m.den : Int)
  let fl := t.fdiv d
  let r2 := 2 * (t - fl * d)
  if r2 < d then fl
  else if d < r2 then fl + 1
  else if fl % 2 = 0 then fl else fl + 1

/-- Render a non-negative count of thousandths as `I.DDD`. -/
def fmtMilli3 (n : Nat) : List Char :=
  natChars (n / 1000) ++ '.' :: padZero 3 (n % 1000)

/-- Python `f"{v:.3f}"`. -/
def pyFormat3f : PyFloat → List Char
  | PyFloat.finite m =>
    if m.num < 0 then '-' :: fmtMilli3 (Int.toNat (roundHalfEvenMilli ⟨-m.num, m.den⟩))
    else fmtMilli3 (Int.toNat (roundHalfEvenMilli m))
  | PyFloat.inf neg => if neg then "-inf".toList else "inf".toList
  | PyFloat.nan => "nan".toList

/-- Python `str.replace('.', ',')`. -/
def replaceDot (s : List Char) : List Char :=
  s.map (fun c => if c = '.' then ',' else c)

/-- The fields of one caption-bearing line: `speaker`, the three colon-parts
of the (stripped) timestamp, and the content. -/
structure LineParts where
  speaker : List Char
  hours : List Char
  minutes : List Char
  seconds : List Char
  content : List Char
deriving DecidableEq

/-- The two guards of `create_srt_from_transcript`: exactly three four-space
fields, and exactly three colon parts in the stripped timestamp. -/
def lineFields (line : List Char) : Option LineParts :=
  match pySplit4 line with
  | [speaker, timestamp, text] =>
    match pySplitChar ':' (pyStripList timestamp) with
    | [hours, minutes, seconds] => some ⟨speaker, hours, minutes, seconds, text⟩
    | _ => none
  | _ => none

/-- One SRT entry:
`f"{counter}\n{start_time} --> {end_time}\n{speaker}: {text}\n"` with
`start_time = f"{hours}:{minutes}:{seconds},000"` and
`end_time = f"{hours}:{minutes}:{float(seconds)+5:.3f}".replace('.', ',')`. -/
def srtEntry (counter : Nat) (p : LineParts) (v : PyFloat) : List Char :=
  natChars counter ++ '\n' ::
    (p.hours ++ ':' :: p.minutes ++ ':' :: p.seconds ++ ",000".toList) ++
    " --> ".toList ++
    replaceDot (p.hours ++ ':' :: p.minutes ++ ':' :: pyFormat3f (pyAdd5 v)) ++
    '\n' :: p.speaker ++ ": ".toList ++ p.content ++ ['\n']

/-- The accepted-line loop of `create_srt_from_transcript`: skip lines
failing either guard, raise (`Except.error`) when `float(seconds)` does, and
otherwise emit the entry and advance the counter. -/
def srtLoop : Nat → List (List Char) → Except Unit (List (List Char))
  | _, [] => Except.ok []
  | counter, l :: ls =>
    match lineFields l with
    | none => srtLoop counter ls
    | some p =>
      match pyParseFloat p.seconds with
      | none => Except.error ()
      | some v =>
        (srtLoop (counter + 1) ls).map (fun rest => srtEntry counter p v :: rest)

/-- `[line.strip() for line in transcript.split('\n') if line.strip()]`. -/
def srtLines (t : List Char) : List (List Char) :=
  ((pySplitChar '\n' t).map pyStripList).filter (fun l => l ≠ [])

/-- `create_srt_from_transcript` from src/stt/rev.py (entries are joined
with a single newline). -/
def create_srt_from_transcript (t : String) : Except Unit String :=
  (srtLoop 1 (srtLines t.toList)).map (fun es => String.mk (joinSep ['\n'] es))

/-- A line together with its parsed seconds value, when the line yields a
caption record. -/
def lineParsed (l : List Char) : Option (LineParts × PyFloat) :=
  match lineFields l with
  | some p => (pyParseFloat p.seconds).map (fun v => (p, v))
  | none => none

/-- Does this line make the decoder raise?  (It passes both shape guards but
its seconds field is not a Python float.) -/
def lineRaises (l : List Char) : Bool :=
  match lineFields l with
  | some p => (pyParseFloat p.seconds).isNone
  | none => false

/-- The per-line step of `format_transcript_txt`: a non-blank line with three
`split('    ', 2)` parts is re-emitted as speaker / timestamp / content /
blank. -/
def formatStep (line : List Char) : Option (List (List Char)) :=
  if pyStripList line ≠ [] then
    match pySplit4Max 2 line with
    | [speaker, timestamp, content] => some [speaker, timestamp, content, []]
    | _ => none
  else none

/-- `format_transcript_txt` from src/stt/rev.py. -/
def format_transcript_txt (t : String) : String :=
  String.mk (joinSep ['\n']
    ((pySplitChar '\n' t.toList).foldl
      (fun acc line =>
        match formatStep line with
        | some block => acc ++ block
        | none => acc)
      []))

end RemakePod

namespace RemakePod

/-! ## Theorems -/

/-- C9, counterexample: at a duration of exactly one day (86400 s) the code
prints `00:00:00,000` because `td.seconds` wraps modulo 86400, while the
claimed formula `hours = total seconds div 3600` demands `24:00:00,000`. -/
theorem format_timestamp_day_wrap :
    format_timestamp (86400 * 1000000) ≠ specFormatTimestamp (86400 * 1000000) ∧
    format_timestamp (86400 * 1000000) = "00:00:00,000".toList ∧
    specFormatTimestamp (86400 * 1000000) = "24:00:00,000".toList := by
  refine ⟨?_, ?_, ?_⟩ <;> decide

/-- C9, amended: for every duration strictly below one day, `format_timestamp`
agrees with the spec formula — hours/minutes/seconds from the integer part of
the duration, milliseconds from the fractional remainder truncated (not
rounded) to three digits. -/
theorem format_timestamp_spec_below_one_day (us : Nat) (h : us < 86400 * 1000000) :
    format_timestamp us = specFormatTimestamp us := by
  unfold format_timestamp specFormatTimestamp
  have h1 : us / 1000000 % 86400 = us / 1000000 := by
    apply Nat.mod_eq_of_lt
    omega
  rw [h1]

/-- Witness for `format_timestamp_spec_below_one_day` at 3 661.25 s. -/
theorem format_timestamp_spec_below_one_day_witness :
    format_timestamp 3661250000 = specFormatTimestamp 3661250000 :=
  format_timestamp_spec_below_one_day 3661250000 (by decide)

/-- The append-accumulating inner loop is filter-then-map. -/
theorem matchingTexts_eq_filter (seg : DiarizationSegment)
    (trans : List TranscriptSegment) :
    matchingTexts seg trans =
      (trans.filter (fun tr => overlapB seg tr)).map (·.text) := by
  unfold matchingTexts
  suffices h : ∀ acc, trans.foldl
      (fun acc tr => if overlapB seg tr then acc ++ [tr.text] else acc) acc =
      acc ++ (trans.filter (fun tr => overlapB seg tr)).map (·.text) by
    simpa using h []
  induction trans with
  | nil => intro acc; simp
  | cons tr ts ih =>
    intro acc
    by_cases h : overlapB seg tr <;> simp [h, ih, List.filter_cons]

/-- The append-accumulating outer loop is a `filterMap`. -/
theorem combineSegments_eq_filterMap (diar : List DiarizationSegment)
    (trans : List TranscriptSegment) :
    combineSegments diar trans =
      diar.filterMap (fun seg =>
        let m := matchingTexts seg trans
        if m = [] then none else some (speakerLine seg.track m)) := by
  unfold combineSegments
  suffices h : ∀ acc, diar.foldl
      (fun acc seg =>
        let m := matchingTexts seg trans
        if m = [] then acc else acc ++ [speakerLine seg.track m]) acc =
      acc ++ diar.filterMap (fun seg =>
        let m := matchingTexts seg trans
        if m = [] then none else some (speakerLine seg.track m)) by
    simpa using h []
  induction diar with
  | nil => intro acc; simp
  | cons seg ds ih =>
    intro acc
    by_cases h : matchingTexts seg trans = [] <;>
      simp [h, ih, List.filterMap_cons]

/-- C3: the aligner emits, in diarization order, one utterance per diarization
segment with at least one match; a transcript segment `T` contributes to the
utterance of `D` exactly when `T.start ∈ [D.start, D.stop)` or
`T.stop ∈ (D.start, D.stop]`; matched texts are joined by a single space in
transcript order (a segment overlapping several windows being duplicated into
each); and on the spec's concrete example the utterances are
`Speaker 0: hello world` and `Speaker 1: world bye`. -/
theorem aligner_matches_spec :
    (∀ (seg : DiarizationSegment) (tr : TranscriptSegment),
        overlapB seg tr = true ↔
          (tr.start ∈ Set.Ico seg.start seg.stop ∨
            tr.stop ∈ Set.Ioc seg.start seg.stop)) ∧
    (∀ (diar : List DiarizationSegment) (trans : List TranscriptSegment),
        combineSegments diar trans =
          diar.filterMap (fun seg =>
            let texts := (trans.filter (fun tr => overlapB seg tr)).map (·.text)
            if texts = [] then none
            else some (speakerLine seg.track texts))) ∧
    combineSegments
        [⟨0, 0, 5⟩, ⟨1, 5, 9⟩]
        [⟨0, 2, "hello".toList⟩, ⟨3, 6, "world".toList⟩, ⟨7, 9, "bye".toList⟩] =
      ["Speaker 0: hello world".toList, "Speaker 1: world bye".toList] := by
  refine ⟨?_, ?_, ?_⟩
  · intro seg tr
    simp only [overlapB, Set.mem_Ico, Set.mem_Ioc, Bool.or_eq_true,
      Bool.and_eq_true, decide_eq_true_eq, ge_iff_le, gt_iff_lt]
  · intro diar trans
    rw [combineSegments_eq_filterMap]
    simp only [matchingTexts_eq_filter]
  · decide

/-- The mixer's fold is a `filterMap` over the utterance list. -/
theorem generate_speech_eq_filterMap {α : Type} (synth : String → String → α)
    (speaker_lines : List (Nat × String)) (voices : List String) :
    generate_speech synth speaker_lines voices =
      speaker_lines.filterMap (fun line =>
        if h : line.1 < voices.length then
          some (synth line.2 voices[line.1])
        else none) := by
  unfold generate_speech
  suffices h : ∀ acc, speaker_lines.foldl
      (fun final_mix line =>
        if h : line.1 < voices.length then
          final_mix ++ [synth line.2 voices[line.1]]
        else final_mix) acc =
      acc ++ speaker_lines.filterMap (fun line =>
        if h : line.1 < voices.length then
          some (synth line.2 voices[line.1])
        else none) by
    simpa using h []
  induction speaker_lines with
  | nil => intro acc; simp
  | cons l ls ih =>
    intro acc
    by_cases h : l.1 < voices.length <;> simp [h, ih, List.filterMap_cons]

/-- C6: the mixer processes utterances in order, synthesizing exactly those
whose speaker id indexes into the voice list and skipping the rest, so the
number of clips never exceeds the number of utterances; on the spec's concrete
example the mix is the two clips for "hi" (voice "A") then "bye" (voice "B"). -/
theorem mixer_skips_unbound_speakers :
    (∀ (α : Type) (synth : String → String → α)
        (us : List (Nat × String)) (vs : List String),
        generate_speech synth us vs =
          us.filterMap (fun line =>
            if h : line.1 < vs.length then
              some (synth line.2 vs[line.1])
            else none)) ∧
    (∀ (α : Type) (synth : String → String → α)
        (us : List (Nat × String)) (vs : List String),
        (generate_speech synth us vs).length ≤ us.length) ∧
    generate_speech Prod.mk [(0, "hi"), (5, "ignored"), (1, "bye")] ["A", "B"] =
      [("hi", "A"), ("bye", "B")] := by
  refine ⟨fun α synth us vs => generate_speech_eq_filterMap synth us vs,
    fun α synth us vs => ?_, by decide⟩
  rw [generate_speech_eq_filterMap]
  exact List.length_filterMap_le _ _

/-- Removal only shrinks the modelled disk. -/
theorem mem_of_mem_removeFile {q p : String} {d : List String}
    (h : q ∈ removeFile p d) : q ∈ d :=
  List.mem_of_mem_filter h

/-- Files absent before a removal are absent after it. -/
theorem not_mem_removeFile_of_not_mem {q p : String} {d : List String}
    (h : q ∉ d) : q ∉ removeFile p d :=
  fun hq => h (mem_of_mem_removeFile hq)

/-- A removed file is gone. -/
theorem not_mem_removeFile_self (p : String) (d : List String) :
    p ∉ removeFile p d := by
  intro h
  have := List.of_mem_filter h
  simp at this

/-- The cleanup fold never resurrects a file. -/
theorem not_mem_foldl_removeFile {q : String} {tf : List String}
    {d : List String} (h : q ∉ d) :
    q ∉ tf.foldl (fun d p => removeFile p d) d := by
  induction tf generalizing d with
  | nil => exact h
  | cons t ts ih => exact ih (not_mem_removeFile_of_not_mem h)

/-- After folding removal over the whole registered list, none of the
registered files remains. -/
theorem cleanup_fold_removes (tf : List String) (d : List String) :
    ∀ p ∈ tf, p ∉ tf.foldl (fun d p => removeFile p d) d := by
  induction tf generalizing d with
  | nil => intro p hp; simp at hp
  | cons t ts ih =>
    intro p hp
    simp only [List.foldl_cons]
    rcases List.mem_cons.mp hp with rfl | hp
    · exact not_mem_foldl_removeFile (not_mem_removeFile_self p d)
    · exact ih (removeFile t d) p hp

/-- C1, counterexample: a run whose transcription stage (stage 3) raises has
already registered `temp/temp_audio.mp3`, ends failed, and leaves that
registered temp artifact on disk — the `except` handler releases nothing. -/
theorem failed_run_leaves_temp_artifact :
    (runPipeline "~/Downloads" ".mp3" "20250101_000000" (some 3)).failed = true ∧
    tempAudioPath ∈ (runPipeline "~/Downloads" ".mp3" "20250101_000000" (some 3)).temp_files ∧
    tempAudioPath ∈ (runPipeline "~/Downloads" ".mp3" "20250101_000000" (some 3)).disk := by
  refine ⟨rfl, ?_, ?_⟩ <;> decide

/-- C1, amended: temp-artifact release happens only on the success path.  A
successful run removes every registered temp artifact from disk (only the two
exported outputs can remain), while a run failing at any stage from
diarization onwards ends with `temp/temp_audio.mp3` both registered and still
on disk. -/
theorem cleanup_only_on_success (dl ext ts : String) (k : Nat)
    (h2 : 2 ≤ k) (h6 : k ≤ 6) :
    ((runPipeline dl ext ts none).failed = false ∧
      ∀ p ∈ (runPipeline dl ext ts none).temp_files,
        p ∉ (runPipeline dl ext ts none).disk) ∧
    ((runPipeline dl ext ts (some k)).failed = true ∧
      tempAudioPath ∈ (runPipeline dl ext ts (some k)).temp_files ∧
      tempAudioPath ∈ (runPipeline dl ext ts (some k)).disk) := by
  refine ⟨⟨?_, ?_⟩, ?_, ?_, ?_⟩
  · by_cases hc : ext ∈ convertExts <;>
      simp [runPipeline, cleanupRun, applyStage, List.range_succ, hc]
  · intro p hp
    exact cleanup_fold_removes _ _ p hp
  · simp [runPipeline]
  · interval_cases k <;>
      by_cases hc : ext ∈ convertExts <;>
        simp [runPipeline, applyStage, List.range_succ, hc]
  · interval_cases k <;>
      by_cases hc : ext ∈ convertExts <;>
        simp [runPipeline, applyStage, removeFile, List.range_succ, hc]

/-- Witness for `cleanup_only_on_success` with an `.mp3` upload failing at
the translation stage. -/
theorem cleanup_only_on_success_witness :
    ((runPipeline "~/Downloads" ".mp3" "20250101_000000" none).failed = false ∧
      ∀ p ∈ (runPipeline "~/Downloads" ".mp3" "20250101_000000" none).temp_files,
        p ∉ (runPipeline "~/Downloads" ".mp3" "20250101_000000" none).disk) ∧
    ((runPipeline "~/Downloads" ".mp3" "20250101_000000" (some 4)).failed = true ∧
      tempAudioPath ∈ (runPipeline "~/Downloads" ".mp3" "20250101_000000" (some 4)).temp_files ∧
      tempAudioPath ∈ (runPipeline "~/Downloads" ".mp3" "20250101_000000" (some 4)).disk) :=
  cleanup_only_on_success "~/Downloads" ".mp3" "20250101_000000" 4
    (by decide) (by decide)

/-- C7, counterexample: two concurrent runs with distinct request timestamps
but the same upload extension register exactly the same (nonempty) temp paths
— the names are fixed literals, so the registered sets are not disjoint. -/
theorem concurrent_runs_share_temp_paths :
    (runPipeline "~/Downloads" ".mp3" "20250101_000000" none).temp_files =
      (runPipeline "~/Downloads" ".mp3" "20250102_123456" none).temp_files ∧
    tempAudioPath ∈ (runPipeline "~/Downloads" ".mp3" "20250101_000000" none).temp_files := by
  refine ⟨?_, ?_⟩ <;> decide

/-- C7, amended: every run that reaches the conversion stage registers exactly
the fixed literal paths `temp/temp_input{ext}` and `temp/temp_audio.mp3` —
independent of the request timestamp, downloads directory, and failure point —
so any two runs with the same upload extension register identical, nonempty
temp path sets rather than disjoint ones (the mixer likewise writes each clip
to the fixed literal `temp.mp3`). -/
theorem temp_paths_are_fixed_literals (dl dl' ext ts ts' : String)
    (fa fa' : Option Nat) (h : ∀ k ∈ fa, 2 ≤ k ∧ k ≤ 6)
    (h' : ∀ k ∈ fa', 2 ≤ k ∧ k ≤ 6) :
    (runPipeline dl ext ts fa).temp_files = [tempInputPath ext, tempAudioPath] ∧
    (runPipeline dl ext ts fa).temp_files = (runPipeline dl' ext ts' fa').temp_files ∧
    tempAudioPath ∈ (runPipeline dl ext ts fa).temp_files := by
  have base : ∀ (d t : String) (f : Option Nat), (∀ k ∈ f, 2 ≤ k ∧ k ≤ 6) →
      (runPipeline d ext t f).temp_files = [tempInputPath ext, tempAudioPath] := by
    intro d t f hf
    match f with
    | none =>
      by_cases hc : ext ∈ convertExts <;>
        simp [runPipeline, cleanupRun, applyStage, List.range_succ, hc]
    | some k =>
      obtain ⟨hk2, hk6⟩ := hf k rfl
      interval_cases k <;>
        by_cases hc : ext ∈ convertExts <;>
          simp [runPipeline, applyStage, List.range_succ, hc]
  refine ⟨base dl ts fa h, ?_, ?_⟩
  · rw [base dl ts fa h, base dl' ts' fa' h']
  · rw [base dl ts fa h]; simp [tempAudioPath]

/-- Exit analysis of the poll loop from an arbitrary start index: the loop
exits at the first non-`in_progress` status at or after the start, having
slept the fixed interval once per iteration. -/
theorem pollTrace_spec (st : Nat → String) :
    ∀ (fuel b i : Nat) (tr : List Nat), pollTrace st fuel b = some (i, tr) →
      b ≤ i ∧ st i ≠ "in_progress" ∧
        (∀ j, b ≤ j → j < i → st j = "in_progress") ∧
        tr = List.replicate (i - b) pollIntervalSeconds := by
  intro fuel
  induction fuel with
  | zero =>
    intro b i tr h
    by_cases hb : st b = "in_progress" <;> simp [pollTrace, hb] at h
    obtain ⟨rfl, rfl⟩ := h
    exact ⟨le_refl b, hb, fun j hbj hjb => absurd (lt_of_le_of_lt hbj hjb) (lt_irrefl b), by simp⟩
  | succ fuel ih =>
    intro b i tr h
    by_cases hb : st b = "in_progress"
    · simp only [pollTrace, hb, if_true, Option.map_eq_some'] at h
      obtain ⟨⟨i2, tr2⟩, hrec, heq⟩ := h
      obtain ⟨rfl, rfl⟩ : i = i2 ∧ tr = pollIntervalSeconds :: tr2 := by
        simpa using heq.symm
      obtain ⟨hbi, hterm, hmid, htr⟩ := ih (b + 1) i tr2 hrec
      refine ⟨by omega, hterm, ?_, ?_⟩
      · intro j hbj hji
        rcases eq_or_lt_of_le hbj with rfl | hlt
        · exact hb
        · exact hmid j hlt hji
      · have : i - b = (i - (b + 1)) + 1 := by omega
        rw [this, htr, List.replicate_succ]
    · simp only [pollTrace, hb, if_false, Option.some_inj] at h
      obtain ⟨rfl, rfl⟩ : b = i ∧ ([] : List Nat) = tr := by simpa using h
      exact ⟨le_refl b, hb, fun j hbj hjb => absurd (lt_of_le_of_lt hbj hjb) (lt_irrefl b), by simp⟩

/-- C8: under the collaborator's status contract (every status is
`in_progress`, `transcribed` or `failed`), whenever the poll loop exits, it
exits at the first terminal status, every earlier poll saw `in_progress`,
every sleep between polls was the fixed 30-second interval, and the
transcript is fetched iff the terminal status is the success status
`transcribed`, an error naming the transcription stage being raised on
`failed`. -/
theorem polling_stops_at_terminal_status (st : Nat → String)
    (fuel i : Nat) (tr : List Nat) (txt : String)
    (hdom : ∀ n, st n = "in_progress" ∨ st n = "transcribed" ∨ st n = "failed")
    (hp : pollTrace st fuel 0 = some (i, tr)) :
    (st i = "transcribed" ∨ st i = "failed") ∧
    (∀ j, j < i → st j = "in_progress") ∧
    tr = List.replicate i pollIntervalSeconds ∧
    (transcribe_result st fuel txt = some (Except.ok txt) ↔ st i = "transcribed") ∧
    (st i = "failed" → transcribe_result st fuel txt =
      some (Except.error "Transcription failed with status: failed")) := by
  obtain ⟨-, hterm, hmid, htr⟩ := pollTrace_spec st fuel 0 i tr hp
  have hterm2 : st i = "transcribed" ∨ st i = "failed" := by
    rcases hdom i with h | h | h
    · exact absurd h hterm
    · exact Or.inl h
    · exact Or.inr h
  refine ⟨hterm2, fun j hj => hmid j (Nat.zero_le j) hj, by simpa using htr, ?_, ?_⟩
  · constructor
    · intro hres
      by_contra hnt
      simp [transcribe_result, hp, hnt] at hres
    · intro hst
      simp [transcribe_result, hp, hst]
  · intro hst
    have hnt : ¬ st i = "transcribed" := by rw [hst]; decide
    simp [transcribe_result, hp, hnt, hst]

/-- Witness for `polling_stops_at_terminal_status`: a job that is in progress
for two polls and then succeeds. -/
theorem polling_stops_at_terminal_status_witness :
    ((fun n => if n < 2 then "in_progress" else "transcribed") 2 = "transcribed" ∨
      (fun n => if n < 2 then "in_progress" else "transcribed") 2 = "failed") ∧
    (∀ j, j < 2 →
      (fun n => if n < 2 then "in_progress" else "transcribed") j = "in_progress") ∧
    [30, 30] = List.replicate 2 pollIntervalSeconds ∧
    (transcribe_result (fun n => if n < 2 then "in_progress" else "transcribed") 5 "txt" =
        some (Except.ok "txt") ↔
      (fun n => if n < 2 then "in_progress" else "transcribed") 2 = "transcribed") ∧
    ((fun n => if n < 2 then "in_progress" else "transcribed") 2 = "failed" →
      transcribe_result (fun n => if n < 2 then "in_progress" else "transcribed") 5 "txt" =
        some (Except.error "Transcription failed with status: failed")) :=
  polling_stops_at_terminal_status (fun n => if n < 2 then "in_progress" else "transcribed")
    5 2 [30, 30] "txt"
    (by
      intro n
      by_cases h : n < 2
      · exact Or.inl (by simp [h])
      · exact Or.inr (Or.inl (by simp [h])))
    (by decide)

/-- `lastCut` is zero exactly when the separator is absent. -/
theorem lastCut_eq_zero_iff (sep : Char) (p : List Char) :
    lastCut sep p = 0 ↔ sep ∉ p := by
  induction p with
  | nil => simp [lastCut]
  | cons c rest ih =>
    simp only [lastCut, List.mem_cons]
    by_cases hr : lastCut sep rest = 0
    · by_cases hc : c = sep
      · simp [hr, hc, ih.symm]
      · simp [hr, hc, ih.symm]; tauto
    · simp only [hr, if_false]
      constructor
      · intro h; omega
      · intro h
        exact absurd (ih.mpr fun hm => h (Or.inr hm)) hr

/-- `lastCut` never exceeds the length. -/
theorem lastCut_le_length (sep : Char) (p : List Char) :
    lastCut sep p ≤ p.length := by
  induction p with
  | nil => simp [lastCut]
  | cons c rest ih =>
    simp only [lastCut, List.length_cons]
    by_cases hr : lastCut sep rest = 0
    · by_cases hc : c = sep <;> simp [hr, hc]
    · simp only [hr, if_false]; omega

/-- Everything after the cut is separator-free. -/
theorem not_mem_drop_lastCut (sep : Char) (p : List Char) :
    sep ∉ p.drop (lastCut sep p) := by
  induction p with
  | nil => simp [lastCut]
  | cons c rest ih =>
    simp only [lastCut]
    by_cases hr : lastCut sep rest = 0
    · by_cases hc : c = sep
      · simpa [hr, hc] using (lastCut_eq_zero_iff sep rest).mp hr
      · have hrest := (lastCut_eq_zero_iff sep rest).mp hr
        simp only [hr, if_true, hc, if_false, List.drop_zero, List.mem_cons]
        rintro (h | h)
        · exact hc h.symm
        · exact hrest h
    · simpa [hr] using ih

/-- When a cut exists, the head ends with the separator. -/
theorem take_lastCut_concat (sep : Char) (p : List Char)
    (h : 0 < lastCut sep p) :
    ∃ u, p.take (lastCut sep p) = u ++ [sep] := by
  induction p with
  | nil => simp [lastCut] at h
  | cons c rest ih =>
    simp only [lastCut] at h ⊢
    by_cases hr : lastCut sep rest = 0
    · by_cases hc : c = sep
      · exact ⟨[], by simp [hr, hc]⟩
      · simp [hr, hc] at h
    · have hpos : 0 < lastCut sep rest := Nat.pos_of_ne_zero hr
      obtain ⟨u, hu⟩ := ih hpos
      exact ⟨c :: u, by simp [hr, hu]⟩

/-- One-step unfolding of `lastCut`. -/
theorem lastCut_cons (sep c : Char) (rest : List Char) :
    lastCut sep (c :: rest) =
      if lastCut sep rest = 0 then (if c = sep then 1 else 0)
      else lastCut sep rest + 1 := rfl

/-- Cut position of `d ++ sep :: n` when `n` is separator-free. -/
theorem lastCut_append_cons (sep : Char) (d n : List Char) (hn : sep ∉ n) :
    lastCut sep (d ++ sep :: n) = d.length + 1 := by
  induction d with
  | nil =>
    have h0 : lastCut sep n = 0 := (lastCut_eq_zero_iff sep n).mpr hn
    simp [lastCut_cons, h0]
  | cons c d2 ih =>
    rw [List.cons_append, lastCut_cons, ih]
    simp

/-- Cut position of `d ++ n` when `d` is all separators and `n` is
separator-free. -/
theorem lastCut_append_all (sep : Char) (d n : List Char) (hd : d ≠ [])
    (hall : ∀ c ∈ d, c = sep) (hn : sep ∉ n) :
    lastCut sep (d ++ n) = d.length := by
  induction d with
  | nil => exact absurd rfl hd
  | cons c d2 ih =>
    have hc : c = sep := hall c (List.mem_cons_self c d2)
    match d2 with
    | [] =>
      have h0 : lastCut sep n = 0 := (lastCut_eq_zero_iff sep n).mpr hn
      simp [lastCut, h0, hc]
    | c2 :: d3 =>
      have ih2 := ih (by simp) (fun x hx => hall x (List.mem_cons_of_mem c hx))
      rw [List.cons_append, lastCut_cons, ih2]
      simp

/-- A list splits as its trailing-strip plus an all-`q` suffix. -/
theorem dropTrailWhile_decomp (q : Char → Bool) (l : List Char) :
    ∃ w, l = dropTrailWhile q l ++ w ∧ ∀ c ∈ w, q c = true := by
  refine ⟨(l.reverse.takeWhile q).reverse, ?_, ?_⟩
  · unfold dropTrailWhile
    conv_lhs => rw [← l.reverse_reverse,
      ← List.takeWhile_append_dropWhile q l.reverse]
    rw [List.reverse_append]
  · intro c hc
    exact List.mem_takeWhile_imp (List.mem_reverse.mp hc)

/-- The last survivor of a trailing strip fails `q`. -/
theorem getLast_dropTrailWhile (q : Char → Bool) (l : List Char) (c : Char)
    (h : (dropTrailWhile q l).getLast? = some c) : q c = false := by
  unfold dropTrailWhile at h
  rw [List.getLast?_reverse] at h
  have := List.head?_dropWhile_not q l.reverse
  rw [h] at this
  simpa using this

/-- Stripping trailing separators from `d ++ [c]` recovers `d` when `d` does
not end in a separator. -/
theorem dropTrailWhile_append_single (q : Char → Bool) (d : List Char)
    (c : Char) (hc : q c = true)
    (hd : ∀ x, d.getLast? = some x → q x = false) :
    dropTrailWhile q (d ++ [c]) = d := by
  unfold dropTrailWhile
  rw [List.reverse_append]
  simp only [List.reverse_singleton, List.singleton_append, List.dropWhile_cons,
    hc, if_true]
  cases hrev : d.reverse with
  | nil =>
    have hd0 : d = [] := by simpa using congrArg List.reverse hrev
    simp [hrev, hd0]
  | cons x xs =>
    have hx : q x = false := hd x (by rw [← List.head?_reverse, hrev]; rfl)
    have hstep : List.dropWhile q (x :: xs) = x :: xs := by
      simp [List.dropWhile_cons, hx]
    rw [hstep, ← hrev, List.reverse_reverse]

/-- `splitext` decomposes its argument, and a nonempty extension starts with
a dot. -/
theorem pySplitext_decomp (p : List Char) :
    (pySplitext p).1 ++ (pySplitext p).2 = p ∧
    ((pySplitext p).2 = [] ∨ (pySplitext p).2.head? = some '.') := by
  unfold pySplitext
  by_cases h0 : lastCut '.' p = 0
  · simp [h0]
  · have hpos : 0 < lastCut '.' p := Nat.pos_of_ne_zero h0
    by_cases hany : (p.take (lastCut '.' p - 1)).any (fun c => c ≠ '.')
    · rw [if_neg h0, if_pos hany]
      refine ⟨List.take_append_drop _ _, Or.inr ?_⟩
      obtain ⟨u, hu⟩ := take_lastCut_concat '.' p hpos
      have hle := lastCut_le_length '.' p
      have hulen : u.length = lastCut '.' p - 1 := by
        have hl := congrArg List.length hu
        simp only [List.length_take, List.length_append, List.length_singleton,
          Nat.min_eq_left hle] at hl
        omega
      have hu2 : p.take (lastCut '.' p - 1) = u := by
        have ht : p.take (lastCut '.' p - 1) =
            (p.take (lastCut '.' p)).take (lastCut '.' p - 1) := by
          rw [List.take_take, Nat.min_eq_left (by omega)]
        rw [ht, hu, ← hulen, List.take_left]
      have hsplit1 : p.take (lastCut '.' p - 1) ++ p.drop (lastCut '.' p - 1) = p :=
        List.take_append_drop _ _
      have hsplit2 : u ++ '.' :: p.drop (lastCut '.' p) = p := by
        have hta := List.take_append_drop (lastCut '.' p) p
        rw [hu] at hta
        simpa using hta
      rw [hu2] at hsplit1
      have hdrop : p.drop (lastCut '.' p - 1) = '.' :: p.drop (lastCut '.' p) :=
        List.append_cancel_left (hsplit1.trans hsplit2.symm)
      simp [hdrop]
    · rw [if_neg h0, if_neg hany]
      simp

/-- Shape analysis of `posixpath.split`: the basename is slash-free, and the
original path is the dirname plus an (absent / all-slash / single-run)
separator block plus the basename. -/
theorem pySplitPath_shape (p : List Char) :
    '/' ∉ (pySplitPath p).2 ∧
    (((pySplitPath p).1 = [] ∧ p = (pySplitPath p).2) ∨
      ((pySplitPath p).1 ≠ [] ∧ (∀ c ∈ (pySplitPath p).1, c = '/') ∧
        p = (pySplitPath p).1 ++ (pySplitPath p).2) ∨
      ((pySplitPath p).1 ≠ [] ∧
        (∀ x, (pySplitPath p).1.getLast? = some x → x ≠ '/') ∧
        ∃ k, 1 ≤ k ∧
          p = (pySplitPath p).1 ++ List.replicate k '/' ++ (pySplitPath p).2)) := by
  unfold pySplitPath
  by_cases hcond : p.take (lastCut '/' p) ≠ [] ∧
      ¬ (p.take (lastCut '/' p)).all (fun c => c = '/')
  · rw [if_pos hcond]
    dsimp only
    obtain ⟨hne, hnall⟩ := hcond
    obtain ⟨w, hw, hwall⟩ :=
      dropTrailWhile_decomp (fun c => c = '/') (p.take (lastCut '/' p))
    have hex : ∃ c ∈ p.take (lastCut '/' p), ¬ c = '/' := by simpa using hnall
    obtain ⟨c, hcmem, hcns⟩ := hex
    have hdne : dropTrailWhile (fun c => c = '/') (p.take (lastCut '/' p)) ≠ [] := by
      intro hd0
      rw [hd0, List.nil_append] at hw
      rw [hw] at hcmem
      exact hcns (by simpa using hwall c hcmem)
    have hipos : 0 < lastCut '/' p := by
      rcases Nat.eq_zero_or_pos (lastCut '/' p) with h0 | h0
      · rw [h0] at hne; simp at hne
      · exact h0
    obtain ⟨u, hu⟩ := take_lastCut_concat '/' p hipos
    have hwne : w ≠ [] := by
      intro hw0
      rw [hw0, List.append_nil] at hw
      have hlast2 : (p.take (lastCut '/' p)).getLast? = some '/' := by
        rw [hu]; exact List.getLast?_concat u
      rw [hw] at hlast2
      have hq := getLast_dropTrailWhile (fun c => c = '/')
        (p.take (lastCut '/' p)) '/' hlast2
      simp at hq
    refine ⟨not_mem_drop_lastCut '/' p,
      Or.inr (Or.inr ⟨hdne, ?_, w.length, ?_, ?_⟩)⟩
    · intro x hx h7
      have hq := getLast_dropTrailWhile (fun c => c = '/') (p.take (lastCut '/' p)) x hx
      rw [h7] at hq
      simp at hq
    · cases w with
      | nil => exact absurd rfl hwne
      | cons a b => simp
    · have hwrep : w = List.replicate w.length '/' :=
        List.eq_replicate_iff.mpr ⟨rfl, fun b hb => by simpa using hwall b hb⟩
      rw [← hwrep]
      conv_lhs => rw [← List.take_append_drop (lastCut '/' p) p, hw]
  · rw [if_neg hcond]
    refine ⟨not_mem_drop_lastCut '/' p, ?_⟩
    by_cases hne : p.take (lastCut '/' p) = []
    · refine Or.inl ⟨hne, ?_⟩
      conv_lhs => rw [← List.take_append_drop (lastCut '/' p) p]
      rw [hne, List.nil_append]
    · have hall : (p.take (lastCut '/' p)).all (fun c => c = '/') := by
        by_contra hb
        exact hcond ⟨hne, hb⟩
      exact Or.inr (Or.inl ⟨hne,
        fun c hc => by simpa using List.all_eq_true.mp hall c hc,
        (List.take_append_drop _ _).symm⟩)

/-- Joining a dirname-shaped head with a nonempty slash-free name and
splitting again recovers both components. -/
theorem pyJoin_split (d n : List Char) (hn : '/' ∉ n)
    (hd : d = [] ∨ ((∀ c ∈ d, c = '/') ∧ d ≠ []) ∨
      (d ≠ [] ∧ ∀ x, d.getLast? = some x → x ≠ '/')) :
    pySplitPath (pyJoin d n) = (d, n) := by
  have hnh : n.head? ≠ some '/' := fun h => hn (List.mem_of_mem_head? h)
  rcases hd with rfl | ⟨hall, hdne⟩ | ⟨hdne, hlast⟩
  · have hj : pyJoin [] n = n := by
      unfold pyJoin
      rw [if_neg hnh, if_pos (Or.inl rfl)]
      simp
    rw [hj]
    unfold pySplitPath
    have h0 : lastCut '/' n = 0 := (lastCut_eq_zero_iff '/' n).mpr hn
    rw [h0]
    simp
  · have hLast : d.getLast? = some '/' := by
      cases hgl : d.getLast? with
      | none => exact absurd (List.getLast?_eq_none_iff.mp hgl) hdne
      | some x =>
        rw [hall x (List.mem_of_getLast?_eq_some hgl)]
    have hj : pyJoin d n = d ++ n := by
      unfold pyJoin
      rw [if_neg hnh, if_pos (Or.inr hLast)]
    rw [hj]
    unfold pySplitPath
    have hcut : lastCut '/' (d ++ n) = d.length :=
      lastCut_append_all '/' d n hdne hall hn
    rw [hcut, List.take_left, List.drop_left]
    rw [if_neg ?_]
    push_neg
    intro _
    exact List.all_eq_true.mpr fun c hc => by simpa using hall c hc
  · have hgl : d.getLast? ≠ some '/' := fun h => (hlast '/' h) rfl
    have hj : pyJoin d n = d ++ '/' :: n := by
      unfold pyJoin
      rw [if_neg hnh, if_neg (by push_neg; exact ⟨hdne, hgl⟩)]
    rw [hj]
    unfold pySplitPath
    have hcut : lastCut '/' (d ++ '/' :: n) = d.length + 1 :=
      lastCut_append_cons '/' d n hn
    have hlen : (d ++ ['/']).length = d.length + 1 := by simp
    have htake : (d ++ '/' :: n).take (d.length + 1) = d ++ ['/'] := by
      rw [show d ++ '/' :: n = (d ++ ['/']) ++ n by simp, ← hlen, List.take_left]
    have hdrop : (d ++ '/' :: n).drop (d.length + 1) = n := by
      rw [show d ++ '/' :: n = (d ++ ['/']) ++ n by simp, ← hlen, List.drop_left]
    rw [hcut, htake, hdrop]
    rw [if_pos ?_]
    · rw [dropTrailWhile_append_single _ _ _ (by simp)
        (fun x hx => decide_eq_false (hlast x hx))]
    · refine ⟨by simp, ?_⟩
      intro hb
      cases hdrev : d.getLast? with
      | none => exact hdne (List.getLast?_eq_none_iff.mp hdrev)
      | some x =>
        have hxmem : x ∈ d ++ ['/'] :=
          List.mem_append_left _ (List.mem_of_getLast?_eq_some hdrev)
        exact hlast x hdrev (by simpa using List.all_eq_true.mp hb x hxmem)

set_option maxHeartbeats 1000000 in
/-- C10: on a successful translation the input SRT file is never written (its
content is unchanged), the translated text goes to a single new file
`{stem}_{from}_to_{to}_{timestamp}.srt` in the input's directory, nothing else
on the filesystem changes, and that new path is returned. -/
theorem translate_srt_writes_only_new_sibling (fs : FS) (oracle : String → String)
    (f fl tl ts text : String)
    (hfl : '/' ∉ fl.toList) (htl : '/' ∉ tl.toList) (hts : '/' ∉ ts.toList)
    (hread : fs f = some text) :
    ∃ fs2 p, translate_srt fs oracle f fl tl ts = some (fs2, p) ∧
      p ≠ f ∧
      fs2 f = some text ∧
      (∀ q, q ≠ p → fs2 q = fs q) ∧
      fs2 p = some (oracle text) ∧
      pyDirname p.toList = pyDirname f.toList ∧
      pyBasename p.toList =
        newSrtName (pySplitext (pyBasename f.toList)).1 fl tl ts := by
  have hsplit := pySplitext_decomp (pyBasename f.toList)
  have hshape := pySplitPath_shape f.toList
  have hsfx_ne : ("_" ++ fl ++ "_to_" ++ tl ++ "_" ++ ts ++ ".srt").toList ≠ [] := by
    intro h
    have hlen := congrArg List.length h
    simp [String.toList, String.data_append] at hlen
  have hsfx_head :
      (("_" ++ fl ++ "_to_" ++ tl ++ "_" ++ ts ++ ".srt").toList).head? = some '_' := by
    simp [String.toList, String.data_append]
  have hsfx_noslash : '/' ∉ ("_" ++ fl ++ "_to_" ++ tl ++ "_" ++ ts ++ ".srt").toList := by
    simp only [String.toList, String.data_append, List.mem_append]
    push_neg
    refine ⟨⟨⟨⟨⟨⟨by decide, ?_⟩, by decide⟩, ?_⟩, by decide⟩, ?_⟩, by decide⟩
    · simpa [String.toList] using hfl
    · simpa [String.toList] using htl
    · simpa [String.toList] using hts
  have hstem_sub : ∀ c, c ∈ (pySplitext (pyBasename f.toList)).1 →
      c ∈ pyBasename f.toList := by
    intro c hc
    rw [← hsplit.1]
    exact List.mem_append_left _ hc
  have hNs : '/' ∉ newSrtName (pySplitext (pyBasename f.toList)).1 fl tl ts := by
    intro hmem
    rcases List.mem_append.mp hmem with h | h
    · exact hshape.1 (hstem_sub _ h)
    · exact hsfx_noslash h
  have hNT : newSrtName (pySplitext (pyBasename f.toList)).1 fl tl ts ≠
      pyBasename f.toList := by
    intro hNTeq
    rw [newSrtName] at hNTeq
    rcases hsplit.2 with hext | hext
    · have hT2 : pyBasename f.toList = (pySplitext (pyBasename f.toList)).1 := by
        conv_lhs => rw [← hsplit.1, hext, List.append_nil]
      apply hsfx_ne
      have h2 : (pySplitext (pyBasename f.toList)).1 ++
          ("_" ++ fl ++ "_to_" ++ tl ++ "_" ++ ts ++ ".srt").toList =
          (pySplitext (pyBasename f.toList)).1 ++ [] := by
        rw [List.append_nil]
        exact hNTeq.trans hT2
      exact List.append_cancel_left h2
    · have h2 : (pySplitext (pyBasename f.toList)).1 ++
          ("_" ++ fl ++ "_to_" ++ tl ++ "_" ++ ts ++ ".srt").toList =
          (pySplitext (pyBasename f.toList)).1 ++ (pySplitext (pyBasename f.toList)).2 :=
        hNTeq.trans hsplit.1.symm
      have hse := List.append_cancel_left h2
      rw [hse, hext] at hsfx_head
      simp at hsfx_head
  have hd : pyDirname f.toList = [] ∨
      ((∀ c ∈ pyDirname f.toList, c = '/') ∧ pyDirname f.toList ≠ []) ∨
      (pyDirname f.toList ≠ [] ∧
        ∀ x, (pyDirname f.toList).getLast? = some x → x ≠ '/') := by
    rcases hshape.2 with ⟨h1, -⟩ | ⟨h1, h2, -⟩ | ⟨h1, h2, -⟩
    · exact Or.inl h1
    · exact Or.inr (Or.inl ⟨h2, h1⟩)
    · exact Or.inr (Or.inr ⟨h1, h2⟩)
  have hPS : pySplitPath (pyJoin (pyDirname f.toList)
      (newSrtName (pySplitext (pyBasename f.toList)).1 fl tl ts)) =
      (pyDirname f.toList, newSrtName (pySplitext (pyBasename f.toList)).1 fl tl ts) :=
    pyJoin_split _ _ hNs hd
  have hPneF : pyJoin (pyDirname f.toList)
      (newSrtName (pySplitext (pyBasename f.toList)).1 fl tl ts) ≠ f.toList := by
    intro hPF
    apply hNT
    have h2 : pySplitPath f.toList =
        (pyDirname f.toList, newSrtName (pySplitext (pyBasename f.toList)).1 fl tl ts) := by
      conv_lhs => rw [← hPF]
      exact hPS
    exact (congrArg Prod.snd h2).symm
  have hfp : f ≠ String.mk (pyJoin (pyDirname f.toList)
      (newSrtName (pySplitext (pyBasename f.toList)).1 fl tl ts)) := by
    intro h
    exact hPneF (congrArg String.toList h).symm
  refine ⟨writeFS fs (String.mk (pyJoin (pyDirname f.toList)
      (newSrtName (pySplitext (pyBasename f.toList)).1 fl tl ts))) (oracle text),
    String.mk (pyJoin (pyDirname f.toList)
      (newSrtName (pySplitext (pyBasename f.toList)).1 fl tl ts)),
    ?_, ?_, ?_, ?_, ?_, ?_, ?_⟩
  · simp [translate_srt, hread]
  · intro h
    exact hfp h.symm
  · simp only [writeFS]
    rw [if_neg hfp]
    exact hread
  · intro q hq
    simp only [writeFS]
    rw [if_neg hq]
  · simp [writeFS]
  · change (pySplitPath (pyJoin (pyDirname f.toList)
      (newSrtName (pySplitext (pyBasename f.toList)).1 fl tl ts))).1 = pyDirname f.toList
    rw [hPS]
  · change (pySplitPath (pyJoin (pyDirname f.toList)
      (newSrtName (pySplitext (pyBasename f.toList)).1 fl tl ts))).2 =
      newSrtName (pySplitext (pyBasename f.toList)).1 fl tl ts
    rw [hPS]

/-- Witness for `translate_srt_writes_only_new_sibling` on a one-file
filesystem. -/
theorem translate_srt_writes_only_new_sibling_witness :
    ∃ fs2 p, translate_srt
        (fun q => if q = "dir/ep.srt" then some "subtitle text" else none)
        (fun t => t ++ "!") "dir/ep.srt" "en" "fr" "20250101_000000" =
        some (fs2, p) ∧
      p ≠ "dir/ep.srt" ∧
      fs2 "dir/ep.srt" = some "subtitle text" ∧
      (∀ q, q ≠ p →
        fs2 q = (fun q => if q = "dir/ep.srt" then some "subtitle text" else none) q) ∧
      fs2 p = some ("subtitle text" ++ "!") ∧
      pyDirname p.toList = pyDirname "dir/ep.srt".toList ∧
      pyBasename p.toList =
        newSrtName (pySplitext (pyBasename "dir/ep.srt".toList)).1
          "en" "fr" "20250101_000000" :=
  translate_srt_writes_only_new_sibling
    (fun q => if q = "dir/ep.srt" then some "subtitle text" else none)
    (fun t => t ++ "!") "dir/ep.srt" "en" "fr" "20250101_000000" "subtitle text"
    (by decide) (by decide) (by decide) (by simp)

/-- Witness for `temp_paths_are_fixed_literals`: a successful run and a run
failing at transcription, with different timestamps and downloads dirs. -/
theorem temp_paths_are_fixed_literals_witness :
    (runPipeline "~/Downloads" ".wav" "20250101_000000" none).temp_files =
      [tempInputPath ".wav", tempAudioPath] ∧
    (runPipeline "~/Downloads" ".wav" "20250101_000000" none).temp_files =
      (runPipeline "/home/b/Downloads" ".wav" "20250202_111111" (some 3)).temp_files ∧
    tempAudioPath ∈ (runPipeline "~/Downloads" ".wav" "20250101_000000" none).temp_files :=
  temp_paths_are_fixed_literals "~/Downloads" "/home/b/Downloads" ".wav"
    "20250101_000000" "20250202_111111" none (some 3)
    (by intro k hk; simp at hk) (by intro k hk; simp at hk; omega)

theorem sp4head_iff (l : List Char) :
    sp4head l = true ↔ ∃ v, l = ' ' :: ' ' :: ' ' :: ' ' :: v := by
  rw [sp4head.eq_def]
  split
  · rename_i v
    simp
  · rename_i hno
    refine iff_of_false (by simp) ?_
    rintro ⟨v, rfl⟩
    exact hno v rfl

theorem pySplit4_sp4 (rest : List Char) :
    pySplit4 (' ' :: ' ' :: ' ' :: ' ' :: rest) = [] :: pySplit4 rest := rfl

theorem pySplit4_cons_not (c : Char) (rest : List Char)
    (h : sp4head (c :: rest) = false) :
    pySplit4 (c :: rest) =
      match pySplit4 rest with
      | [] => [[c]]
      | hh :: tt => (c :: hh) :: tt := by
  rw [pySplit4.eq_def]
  split
  · rename_i r heq
    rw [show c :: rest = ' ' :: ' ' :: ' ' :: ' ' :: r from heq] at h
    simp [sp4head] at h
  · rename_i c2 rest2 hno heq
    injection heq with h1 h2
    subst h1
    subst h2
    rfl
  · rename_i heq
    simp at heq

theorem pySplit4_ne_nil (s : List Char) : pySplit4 s ≠ [] := by
  induction s with
  | nil => simp [pySplit4]
  | cons c rest ih =>
    by_cases h : sp4head (c :: rest) = true
    · obtain ⟨v, hv⟩ := (sp4head_iff _).mp h
      rw [hv, pySplit4_sp4]
      simp
    · rw [pySplit4_cons_not c rest (by simpa using h)]
      cases hr : pySplit4 rest with
      | nil => simp
      | cons a b => simp

theorem pySplit4_length_cons_not (c : Char) (rest : List Char)
    (h : sp4head (c :: rest) = false) :
    (pySplit4 (c :: rest)).length = (pySplit4 rest).length := by
  rw [pySplit4_cons_not c rest h]
  cases hr : pySplit4 rest with
  | nil => exact absurd hr (pySplit4_ne_nil rest)
  | cons a b => simp

theorem length_three_spaces (v : List Char)
    (h : sp4head (' ' :: ' ' :: ' ' :: v) = false) :
    (pySplit4 (' ' :: ' ' :: ' ' :: v)).length = (pySplit4 v).length := by
  have h3 : sp4head (' ' :: ' ' :: v) = false := by
    rw [Bool.eq_false_iff]
    intro hx
    obtain ⟨w, hw⟩ := (sp4head_iff _).mp hx
    injection hw with h1 hw
    injection hw with h2 hw
    rw [Bool.eq_false_iff] at h
    exact h ((sp4head_iff _).mpr ⟨' ' :: w, by rw [hw]⟩)
  have h4 : sp4head (' ' :: v) = false := by
    rw [Bool.eq_false_iff]
    intro hx
    obtain ⟨w, hw⟩ := (sp4head_iff _).mp hx
    injection hw with h1 hw
    rw [Bool.eq_false_iff] at h
    exact h ((sp4head_iff _).mpr ⟨' ' :: ' ' :: w, by rw [hw]⟩)
  rw [pySplit4_length_cons_not _ _ h, pySplit4_length_cons_not _ _ h3,
    pySplit4_length_cons_not _ _ h4]

theorem sp4head_singleton (c : Char) : sp4head [c] = false := by
  rw [Bool.eq_false_iff]
  intro hx
  obtain ⟨w, hw⟩ := (sp4head_iff _).mp hx
  injection hw with h1 hw
  simp at hw

theorem pySplit4_length_le_cons (c : Char) (s : List Char) :
    (pySplit4 s).length ≤ (pySplit4 (c :: s)).length := by
  suffices h : ∀ (n : Nat) (c : Char) (s : List Char), s.length ≤ n →
      (pySplit4 s).length ≤ (pySplit4 (c :: s)).length from h s.length c s le_rfl
  intro n
  induction n with
  | zero =>
    intro c s hs
    obtain rfl : s = [] := List.length_eq_zero.mp (Nat.le_zero.mp hs)
    rw [pySplit4_length_cons_not c [] (sp4head_singleton c)]
  | succ n ih =>
    intro c s hs
    by_cases htop : sp4head (c :: s) = true
    · obtain ⟨v, hv⟩ := (sp4head_iff _).mp htop
      injection hv with hc hsv
      subst hc
      subst hsv
      rw [pySplit4_sp4]
      by_cases hv2 : sp4head (' ' :: ' ' :: ' ' :: v) = true
      · obtain ⟨w, hw⟩ := (sp4head_iff _).mp hv2
        injection hw with h1 hw
        injection hw with h2 hw
        injection hw with h3 hw
        subst hw
        rw [pySplit4_sp4]
        simp only [List.length_cons]
        have hle : w.length ≤ n := by
          simp only [List.length_cons] at hs
          omega
        exact Nat.succ_le_succ (ih ' ' w hle)
      · rw [length_three_spaces v (by simpa using hv2)]
        simp
    · rw [pySplit4_length_cons_not c s (by simpa using htop)]

theorem pySplit4_length_le_concat (s : List Char) (c : Char) :
    (pySplit4 s).length ≤ (pySplit4 (s ++ [c])).length := by
  suffices h : ∀ (n : Nat) (s : List Char) (c : Char), s.length ≤ n →
      (pySplit4 s).length ≤ (pySplit4 (s ++ [c])).length from h s.length s c le_rfl
  intro n
  induction n with
  | zero =>
    intro s c hs
    obtain rfl : s = [] := List.length_eq_zero.mp (Nat.le_zero.mp hs)
    rw [List.nil_append, pySplit4_length_cons_not c [] (sp4head_singleton c)]
  | succ n ih =>
    intro s c hs
    by_cases htop : sp4head s = true
    · obtain ⟨v, rfl⟩ := (sp4head_iff _).mp htop
      rw [pySplit4_sp4,
        show (' ' :: ' ' :: ' ' :: ' ' :: v) ++ [c] =
          ' ' :: ' ' :: ' ' :: ' ' :: (v ++ [c]) from rfl,
        pySplit4_sp4]
      simp only [List.length_cons]
      have hle : v.length ≤ n := by
        simp only [List.length_cons] at hs
        omega
      exact Nat.succ_le_succ (ih v c hle)
    · cases s with
      | nil =>
        rw [List.nil_append, pySplit4_length_cons_not c [] (sp4head_singleton c)]
      | cons d u =>
        rw [pySplit4_length_cons_not d u (by simpa using htop), List.cons_append]
        by_cases h2 : sp4head (d :: (u ++ [c])) = true
        · obtain ⟨t, ht⟩ := (sp4head_iff _).mp h2
          injection ht with hd hu
          subst hd
          rcases u with - | ⟨u1, - | ⟨u2, - | ⟨u3, ur⟩⟩⟩
          · simp at hu
          · simp at hu
          · simp only [List.cons_append, List.nil_append, List.cons.injEq] at hu
            obtain ⟨rfl, rfl, rfl, -⟩ := hu
            decide
          · simp only [List.cons_append, List.cons.injEq] at hu
            obtain ⟨rfl, rfl, rfl, -⟩ := hu
            exact absurd ((sp4head_iff _).mpr ⟨ur, rfl⟩) (by simpa using htop)
        · rw [pySplit4_length_cons_not d (u ++ [c]) (by simpa using h2)]
          have hle : u.length ≤ n := by
            simp only [List.length_cons] at hs
            omega
          exact ih u c hle

theorem pySplit4_length_le_append_left (w t : List Char) :
    (pySplit4 t).length ≤ (pySplit4 (w ++ t)).length := by
  induction w with
  | nil => simp
  | cons x w2 ih => exact le_trans ih (pySplit4_length_le_cons x (w2 ++ t))

theorem pySplit4_length_le_append_right (t w : List Char) :
    (pySplit4 t).length ≤ (pySplit4 (t ++ w)).length := by
  induction w generalizing t with
  | nil => simp
  | cons x w2 ih =>
    have h2 := ih (t ++ [x])
    rw [List.append_assoc] at h2
    exact le_trans (pySplit4_length_le_concat t x) h2

theorem pySplit4_length_strip_le (s : List Char) :
    (pySplit4 (pyStripList s)).length ≤ (pySplit4 s).length := by
  unfold pyStripList
  obtain ⟨w, hw, -⟩ := dropTrailWhile_decomp isPySpace (s.dropWhile isPySpace)
  calc (pySplit4 (dropTrailWhile isPySpace (s.dropWhile isPySpace))).length
      ≤ (pySplit4 (dropTrailWhile isPySpace (s.dropWhile isPySpace) ++ w)).length :=
        pySplit4_length_le_append_right _ _
    _ = (pySplit4 (s.dropWhile isPySpace)).length := by rw [← hw]
    _ ≤ (pySplit4 (List.takeWhile isPySpace s ++ s.dropWhile isPySpace)).length :=
        pySplit4_length_le_append_left _ _
    _ = (pySplit4 s).length := by rw [List.takeWhile_append_dropWhile]

theorem pySplit4Max_sp4 (n : Nat) (rest : List Char) :
    pySplit4Max (n + 1) (' ' :: ' ' :: ' ' :: ' ' :: rest) =
      [] :: pySplit4Max n rest := rfl

theorem pySplit4Max_cons_not (n : Nat) (c : Char) (rest : List Char)
    (h : sp4head (c :: rest) = false) :
    pySplit4Max (n + 1) (c :: rest) =
      match pySplit4Max (n + 1) rest with
      | [] => [[c]]
      | hh :: tt => (c :: hh) :: tt := by
  rw [pySplit4Max.eq_def]
  split
  · rename_i heq
    simp at heq
  · rename_i heq h2
    omega
  · rename_i n2 r heq h2
    rw [show c :: rest = ' ' :: ' ' :: ' ' :: ' ' :: r from h2] at h
    simp [sp4head] at h
  · rename_i n2 c2 rest2 hno h1 h2
    injection h2 with h3 h4
    subst h3
    subst h4
    simp at h1
    subst h1
    rfl

theorem pySplit4Max_ne_nil (n : Nat) (s : List Char) : pySplit4Max n s ≠ [] := by
  induction s generalizing n with
  | nil => simp [pySplit4Max]
  | cons c rest ih =>
    match n with
    | 0 => simp [pySplit4Max]
    | n + 1 =>
      by_cases h : sp4head (c :: rest) = true
      · obtain ⟨v, hv⟩ := (sp4head_iff _).mp h
        injection hv with h1 h2
        subst h1
        subst h2
        rw [pySplit4Max_sp4]
        simp
      · rw [pySplit4Max_cons_not n c rest (by simpa using h)]
        cases hr : pySplit4Max (n + 1) rest with
        | nil => simp
        | cons a b => simp

theorem pySplit4Max_length_cons_not (n : Nat) (c : Char) (rest : List Char)
    (h : sp4head (c :: rest) = false) :
    (pySplit4Max (n + 1) (c :: rest)).length = (pySplit4Max (n + 1) rest).length := by
  rw [pySplit4Max_cons_not n c rest h]
  cases hr : pySplit4Max (n + 1) rest with
  | nil => exact absurd hr (pySplit4Max_ne_nil (n + 1) rest)
  | cons a b => simp

theorem pySplit4_length_pos (s : List Char) : 0 < (pySplit4 s).length :=
  List.length_pos.mpr (pySplit4_ne_nil s)

theorem pySplit4Max_length_eq (n : Nat) (s : List Char) :
    (pySplit4Max n s).length = min n ((pySplit4 s).length - 1) + 1 := by
  suffices h : ∀ (N n : Nat) (s : List Char), s.length ≤ N →
      (pySplit4Max n s).length = min n ((pySplit4 s).length - 1) + 1 from
    h s.length n s le_rfl
  intro N
  induction N with
  | zero =>
    intro n s hs
    obtain rfl : s = [] := List.length_eq_zero.mp (Nat.le_zero.mp hs)
    simp [pySplit4Max, pySplit4]
  | succ N ih =>
    intro n s hs
    match n, s with
    | _, [] => simp [pySplit4Max, pySplit4]
    | 0, c :: rest => simp [pySplit4Max]
    | n + 1, c :: rest =>
      by_cases h : sp4head (c :: rest) = true
      · obtain ⟨v, hv⟩ := (sp4head_iff _).mp h
        injection hv with h1 h2
        subst h1
        subst h2
        rw [pySplit4Max_sp4, pySplit4_sp4]
        have hle : v.length ≤ N := by
          simp only [List.length_cons] at hs
          omega
        have hpos := pySplit4_length_pos v
        simp only [List.length_cons, ih n v hle]
        omega
      · rw [pySplit4Max_length_cons_not n c rest (by simpa using h),
          pySplit4_length_cons_not c rest (by simpa using h)]
        have hle : rest.length ≤ N := by
          simp only [List.length_cons] at hs
          omega
        exact ih (n + 1) rest hle

/-- C5, amended: `format_transcript_txt` accepts at least every line that
`create_srt_from_transcript` turns into a caption record — decoding strips
the line, requires exactly three four-space fields, a three-part colon
timestamp and a float-parseable seconds field, while the readable formatter
only requires a non-blank line with three `split('    ', 2)` parts, a
strictly weaker condition. -/
theorem format_accepts_decoded_lines (raw : List Char) (p : LineParts)
    (hf : lineFields (pyStripList raw) = some p)
    (hv : (pyParseFloat p.seconds).isSome = true) :
    (formatStep raw).isSome = true := by
  have h3 : (pySplit4 (pyStripList raw)).length = 3 := by
    unfold lineFields at hf
    rcases h4 : pySplit4 (pyStripList raw) with - | ⟨a, - | ⟨b, - | ⟨c, - | ⟨d, e⟩⟩⟩⟩ <;>
      rw [h4] at hf <;> simp_all
  have hne : pyStripList raw ≠ [] := by
    intro h0
    rw [h0] at h3
    simp [pySplit4] at h3
  have hmono := pySplit4_length_strip_le raw
  have hpos := pySplit4_length_pos raw
  have hmax : (pySplit4Max 2 raw).length = 3 := by
    rw [pySplit4Max_length_eq 2 raw]
    omega
  obtain ⟨x, y, z, hxyz⟩ := List.length_eq_three.mp hmax
  unfold formatStep
  rw [if_pos hne, hxyz]
  rfl

theorem srtLoop_isOk_iff (ls : List (List Char)) (counter : Nat) :
    (srtLoop counter ls).isOk = true ↔ ∀ l ∈ ls, lineRaises l = false := by
  induction ls generalizing counter with
  | nil => simp [srtLoop, Except.isOk, Except.toBool]
  | cons l ls ih =>
    simp only [srtLoop, List.mem_cons]
    cases hf : lineFields l with
    | none =>
      dsimp only
      rw [ih counter]
      constructor
      · intro h x hx
        rcases hx with rfl | hx
        · simp [lineRaises, hf]
        · exact h x hx
      · intro h x hx
        exact h x (Or.inr hx)
    | some p =>
      cases hvv : pyParseFloat p.seconds with
      | none =>
        dsimp only
        rw [hvv]
        constructor
        · intro h
          simp [Except.isOk, Except.toBool] at h
        · intro h
          have hcontra := h l (Or.inl rfl)
          simp [lineRaises, hf, hvv] at hcontra
      | some v =>
        dsimp only
        rw [hvv]
        have hmap : ∀ (e : Except Unit (List (List Char))) (f : List (List Char) → List (List Char)),
            (e.map f).isOk = e.isOk := by
          intro e f
          cases e <;> rfl
        rw [hmap, ih (counter + 1)]
        constructor
        · intro h x hx
          rcases hx with rfl | hx
          · simp [lineRaises, hf, hvv]
          · exact h x hx
        · intro h x hx
          exact h x (Or.inr hx)

theorem srtLoop_ok_eq (ls : List (List Char)) :
    ∀ (counter : Nat) (es : List (List Char)), srtLoop counter ls = Except.ok es →
      es = (List.enumFrom counter (ls.filterMap lineParsed)).map
        (fun pr => srtEntry pr.1 pr.2.1 pr.2.2) := by
  induction ls with
  | nil =>
    intro counter es h
    simp only [srtLoop, Except.ok.injEq] at h
    simp [← h]
  | cons l ls ih =>
    intro counter es h
    simp only [srtLoop] at h
    cases hf : lineFields l with
    | none =>
      rw [hf] at h
      dsimp only at h
      rw [ih counter es h]
      simp [List.filterMap_cons, lineParsed, hf]
    | some p =>
      rw [hf] at h
      dsimp only at h
      cases hvv : pyParseFloat p.seconds with
      | none =>
        rw [hvv] at h
        simp at h
      | some v =>
        rw [hvv] at h
        dsimp only at h
        cases hrec : srtLoop (counter + 1) ls with
        | error e =>
          rw [hrec] at h
          simp [Except.map] at h
        | ok rest =>
          rw [hrec] at h
          simp only [Except.map, Except.ok.injEq] at h
          rw [← h, ih (counter + 1) rest hrec]
          simp [List.filterMap_cons, lineParsed, hf, hvv, List.enumFrom]

/-- C2, amended: the codec degrades by omission except in one case — the
decoder succeeds iff no line passes both shape guards with a seconds field
that `float()` rejects (on such a line it raises `ValueError`, modelled as
`Except.error`), and a line failing either shape guard is skipped, the
result being built from the remaining lines only.  `format_transcript_txt`
is a total function and never raises. -/
theorem codec_raises_only_on_unparseable_seconds (t : String) :
    ((create_srt_from_transcript t).isOk = true ↔
      ∀ l ∈ srtLines t.toList, lineRaises l = false) ∧
    (∀ (counter : Nat) (l : List Char) (ls : List (List Char)),
      lineFields l = none → srtLoop counter (l :: ls) = srtLoop counter ls) := by
  constructor
  · have hmap : ∀ (e : Except Unit (List (List Char)))
        (f : List (List Char) → String), (e.map f).isOk = e.isOk := by
      intro e f
      cases e <;> rfl
    unfold create_srt_from_transcript
    rw [hmap]
    exact srtLoop_isOk_iff _ 1
  · intro counter l ls hf
    simp [srtLoop, hf]

/-- C2, counterexample: the line `"Speaker 0    00:00:xx    hi"` matches the
three-field four-space grammar, yet `create_srt_from_transcript` raises
(`float("xx")` is a `ValueError`) instead of skipping it. -/
theorem decode_raises_on_unparseable_seconds :
    create_srt_from_transcript "Speaker 0    00:00:xx    hi" = Except.error () := rfl

/-- C4, amended: every emitted record has exactly the shape
`"{index}\n{start} --> {end}\n{speaker}: {content}\n"` with indices
sequential from 1 over the accepted lines and the hour/minute/second fields
copied verbatim from the input (zero-padded only when the input is); the
records are joined with one newline, so consecutive records are separated by
a blank line but the final record ends in a single newline: re-encoding the
spec's example line yields
`"1\n00:00:05,000 --> 00:00:10,000\nSpeaker 0: hello there\n"`. -/
theorem encode_entry_shape :
    (∀ (t : String) (s : String), create_srt_from_transcript t = Except.ok s →
      s = String.mk (joinSep ['\n']
        ((List.enumFrom 1 ((srtLines t.toList).filterMap lineParsed)).map
          (fun pr => srtEntry pr.1 pr.2.1 pr.2.2)))) ∧
    create_srt_from_transcript "Speaker 0    00:00:05    hello there\n\n" =
      Except.ok "1\n00:00:05,000 --> 00:00:10,000\nSpeaker 0: hello there\n" := by
  constructor
  · intro t s h
    unfold create_srt_from_transcript at h
    cases hrec : srtLoop 1 (srtLines t.toList) with
    | error e =>
      rw [hrec] at h
      simp [Except.map] at h
    | ok es =>
      rw [hrec] at h
      simp only [Except.map, Except.ok.injEq] at h
      rw [← h, srtLoop_ok_eq _ 1 es hrec]
  · rfl

/-- Witness for `encode_entry_shape` on the spec's single-line example. -/
theorem encode_entry_shape_witness :
    "1\n00:00:05,000 --> 00:00:10,000\nSpeaker 0: hello there\n" =
      String.mk (joinSep ['\n']
        ((List.enumFrom 1
          ((srtLines ("Speaker 0    00:00:05    hello there\n\n").toList).filterMap
            lineParsed)).map (fun pr => srtEntry pr.1 pr.2.1 pr.2.2))) :=
  encode_entry_shape.1 "Speaker 0    00:00:05    hello there\n\n"
    "1\n00:00:05,000 --> 00:00:10,000\nSpeaker 0: hello there\n" (by rfl)

/-- C4, counterexample: re-encoding the spec's example does not end with the
claimed blank line (the last record ends in a single newline), and the
timestamps are not zero-padded `HH:MM:SS,mmm` — the hour/minute/second
fields of the input are copied verbatim. -/
theorem encode_no_trailing_blank_and_verbatim_fields :
    create_srt_from_transcript "Speaker 0    00:00:05    hello there\n\n" ≠
      Except.ok "1\n00:00:05,000 --> 00:00:10,000\nSpeaker 0: hello there\n\n" ∧
    create_srt_from_transcript "A    0:0:7    x" =
      Except.ok "1\n0:0:7,000 --> 0:0:12,000\nA: x\n" := by
  constructor
  · intro h
    have h2 : create_srt_from_transcript "Speaker 0    00:00:05    hello there\n\n" =
        Except.ok "1\n00:00:05,000 --> 00:00:10,000\nSpeaker 0: hello there\n" := rfl
    rw [h2] at h
    injection h with h3
    exact absurd h3 (by decide)
  · rfl

/-- Witness for `format_accepts_decoded_lines` on the spec's example line. -/
theorem format_accepts_decoded_lines_witness :
    (formatStep ("Speaker 0    00:00:05    hello there").toList).isSome = true :=
  format_accepts_decoded_lines ("Speaker 0    00:00:05    hello there").toList
    ⟨"Speaker 0".toList, "00".toList, "00".toList, "05".toList, "hello there".toList⟩
    (by rfl) (by rfl)

/-- C5, counterexample: the line `"A    B    C"` is re-emitted as a readable
block by `format_transcript_txt` but yields no caption record in
`create_srt_from_transcript` (its timestamp field has no colon parts), so
the two operations do not accept the same set of lines. -/
theorem format_not_same_tolerance_as_decode :
    format_transcript_txt "A    B    C" = "A\nB\nC\n" ∧
    create_srt_from_transcript "A    B    C" = Except.ok "" := ⟨rfl, rfl⟩

/-- Witness for `codec_raises_only_on_unparseable_seconds`: its skip clause
applied to a line with too few fields. -/
theorem codec_raises_only_on_unparseable_seconds_witness :
    ((create_srt_from_transcript "A    B    C").isOk = true ↔
      ∀ l ∈ srtLines ("A    B    C").toList, lineRaises l = false) ∧
    srtLoop 1 ["A  B".toList] = srtLoop 1 [] :=
  ⟨(codec_raises_only_on_unparseable_seconds "A    B    C").1,
    (codec_raises_only_on_unparseable_seconds "A    B    C").2 1 "A  B".toList []
      (by rfl)⟩

end RemakePod
